import Mathlib

/-!
Shallow embedding of the loco-rust client (src/main.rs): the LOCO packet
header codec, packet assembler/parser, handshake preamble, and the
AES-128-CFB secure channel, together with proofs of the specification's
testable properties.

Conventions of the embedding:
* Bytes are `Nat`s; byte buffers are `List Nat`.  Machine-integer casts are
  explicit (`% 256`, `% 65536`, `% 4294967296`).
* The Rust code unwraps every fallible call, so a failure of any kind is a
  panic that aborts the process.  Fallible operations are embedded as
  `Option`-valued functions where `none` models that panic; the source has
  no non-panicking error path.
* External crates (bincode, bson, rsa, libaes) are collaborators, not code
  of this repository.  bincode's legacy format (fixed-width little-endian
  integers, fixed arrays written element by element, trailing bytes
  allowed) is embedded concretely; the BSON body codec is an opaque
  parameter `dec`; the AES-128 block cipher and CFB-128 mode of libaes are
  embedded concretely below.
-/

/-- Little-endian byte encoding of a `u32` value (bincode fixint). -/
def u32leBytes (n : Nat) : List Nat :=
  [n % 256, n / 256 % 256, n / 65536 % 256, n / 16777216 % 256]

/-- Little-endian byte encoding of a `u16` value (bincode fixint). -/
def u16leBytes (n : Nat) : List Nat :=
  [n % 256, n / 256 % 256]

/-- Little-endian `u32` read from the first four bytes of a buffer
(`bytes::Buf::get_u32_le`, and bincode's `u32` decoding). -/
def u32le (l : List Nat) : Nat :=
  l.getD 0 0 + 256 * l.getD 1 0 + 65536 * l.getD 2 0 + 16777216 * l.getD 3 0

/-- Little-endian `u16` read from the first two bytes of a buffer. -/
def u16le (l : List Nat) : Nat :=
  l.getD 0 0 + 256 * l.getD 1 0

/-- One step of the UTF-8 validation automaton (the check performed by
Rust's `String::from_utf8`, per RFC 3629: no overlong forms, no
surrogates, no code points above U+10FFFF).  The state is `none` once the
input is rejected, otherwise `some (need, lo, hi)`: `need` continuation
bytes are still expected and the next byte must lie in `[lo, hi]`
(subsequent continuation bytes lie in `[0x80, 0xBF]`). -/
def utf8Step : Option (Nat × Nat × Nat) → Nat → Option (Nat × Nat × Nat)
  | none, _ => none
  | some (0, _, _), b =>
    if b ≤ 0x7F then some (0, 0x80, 0xBF)
    else if 0xC2 ≤ b ∧ b ≤ 0xDF then some (1, 0x80, 0xBF)
    else if b = 0xE0 then some (2, 0xA0, 0xBF)
    else if (0xE1 ≤ b ∧ b ≤ 0xEC) ∨ b = 0xEE ∨ b = 0xEF then some (2, 0x80, 0xBF)
    else if b = 0xED then some (2, 0x80, 0x9F)
    else if b = 0xF0 then some (3, 0x90, 0xBF)
    else if 0xF1 ≤ b ∧ b ≤ 0xF3 then some (3, 0x80, 0xBF)
    else if b = 0xF4 then some (3, 0x80, 0x8F)
    else none
  | some (n + 1, lo, hi), b =>
    if lo ≤ b ∧ b ≤ hi then some (n, 0x80, 0xBF) else none

/-- Exact UTF-8 validity of a byte sequence: the automaton accepts and no
continuation bytes are left outstanding. -/
def validUtf8 (l : List Nat) : Bool :=
  match l.foldl utf8Step (some (0, 0x80, 0xBF)) with
  | some (0, _, _) => true
  | _ => false

/-- `struct RequestLocoHeader` (main.rs:125-130).  `method_name` holds the
UTF-8 bytes of the Rust `String`. -/
structure RequestLocoHeader where
  packet_id : Nat
  status_code : Nat
  method_name : List Nat
  body_type : Nat
  deriving DecidableEq, Repr

/-- `struct RawLocoHeader` (main.rs:132-139), the on-wire header record:
`u32` packet id, `u16` status code, `[u8; 11]` method name, `u8` body type,
`u32` body length. -/
structure RawLocoHeader where
  packet_id : Nat
  status_code : Nat
  method_name : List Nat
  body_type : Nat
  body_length : Nat
  deriving DecidableEq, Repr

/-- `struct ResponseLocoHeader` (main.rs:141-148). -/
structure ResponseLocoHeader where
  packet_id : Nat
  status_code : Nat
  method_name : List Nat
  body_type : Nat
  body_length : Nat
  deriving DecidableEq, Repr

/-- `struct ResponseLocoPacket<T>` (main.rs:184-187). -/
structure ResponseLocoPacket (T : Type) where
  header : ResponseLocoHeader
  body : T
  deriving DecidableEq

/-- `struct LocoHandshakeHeader` (main.rs:150-155): three `u32` fields. -/
structure LocoHandshakeHeader where
  data_length : Nat
  rsa_encrypt_type : Nat
  aes_encrypt_type : Nat
  deriving DecidableEq, Repr

/-- `struct LocoSecureHeader` (main.rs:170-174): a `u32` data length and a
`[u8; 16]` initialization vector. -/
structure LocoSecureHeader where
  data_length : Nat
  iv_key : List Nat
  deriving DecidableEq, Repr

/-- `create_loco_raw_header` (main.rs:213-223).  Pads the method name on
the right with zero bytes to 11 bytes.  When the name is longer than 11
bytes the expression `11 - header.method_name.len()` underflows `usize`
and the slice index panics, which `none` models. -/
def create_loco_raw_header (header : RequestLocoHeader) (body_length : Nat) :
    Option RawLocoHeader :=
  if header.method_name.length ≤ 11 then
    some ⟨header.packet_id, header.status_code,
      ((header.method_name ++
        (List.replicate 11 0).take (11 - header.method_name.length)).take 11),
      header.body_type, body_length⟩
  else none

/-- bincode serialization of `RawLocoHeader` (main.rs:228): legacy format,
fixed-width little-endian integers, the `[u8; 11]` array written as its 11
bytes. -/
def serializeRawLocoHeader (raw : RawLocoHeader) : List Nat :=
  u32leBytes raw.packet_id ++ u16leBytes raw.status_code ++
    raw.method_name ++ [raw.body_type % 256] ++ u32leBytes raw.body_length

/-- `parse_loco_header` (main.rs:189-201).  bincode deserialization panics
when fewer than 22 bytes are supplied (trailing bytes are allowed);
`String::from_utf8` panics unless the 11 method-name bytes are valid
UTF-8; `.replace("\0", "")` then removes every zero byte (in valid UTF-8
the byte 0 only occurs as the NUL scalar value). -/
def parse_loco_header (header_buffer : List Nat) : Option ResponseLocoHeader :=
  if 22 ≤ header_buffer.length then
    let mn := (header_buffer.drop 6).take 11
    if validUtf8 mn then
      some ⟨u32le (header_buffer.take 4),
        u16le ((header_buffer.drop 4).take 2),
        mn.filter (fun b => b != 0),
        header_buffer.getD 17 0,
        u32le ((header_buffer.drop 18).take 4)⟩
    else none
  else none

/-- `parse_loco_packet` (main.rs:203-211).  The BSON body decoder
(`bson::from_slice` composed with `bson::from_bson` into the destination
shape `T`) is an external collaborator, abstracted as `dec`.  No
comparison of `header.body_length` with the body buffer is performed. -/
def parse_loco_packet {T : Type} (dec : List Nat → Option T)
    (header_buffer data_buffer : List Nat) : Option (ResponseLocoPacket T) :=
  match parse_loco_header header_buffer, dec data_buffer with
  | some rh, some body => some ⟨rh, body⟩
  | _, _ => none

/-- `create_loco_packet` (main.rs:225-231).  `body_vec` stands for the
bytes produced by the external BSON serializer; its length is cast
`as u32`. -/
def create_loco_packet (header : RequestLocoHeader) (body_vec : List Nat) :
    Option (List Nat) :=
  (create_loco_raw_header header (body_vec.length % 4294967296)).map
    (fun raw => serializeRawLocoHeader raw ++ body_vec)

/-- bincode serialization of `LocoHandshakeHeader` (main.rs:284): three
little-endian `u32`s, 12 bytes. -/
def serializeLocoHandshakeHeader (h : LocoHandshakeHeader) : List Nat :=
  u32leBytes h.data_length ++ u32leBytes h.rsa_encrypt_type ++
    u32leBytes h.aes_encrypt_type

/-- The handshake write of `get_checkin_data` (main.rs:283-284): preamble
with `data_length = encrypted_aes_key.len() as u32`, `rsa_encrypt_type =
14`, `aes_encrypt_type = 2`, followed by the RSA-OAEP-encrypted session
key blob (the blob itself is produced by the external rsa crate and is a
parameter here). -/
def handshake_buffer (encrypted_aes_key : List Nat) : List Nat :=
  serializeLocoHandshakeHeader
      ⟨encrypted_aes_key.length % 4294967296, 14, 2⟩ ++ encrypted_aes_key

/-- The CHECKIN request header built in `get_checkin_data` (main.rs:290-294):
packet id 1, status 0, method name "CHECKIN" (bytes of C,H,E,C,K,I,N),
body type 0. -/
def checkinRequestHeader : RequestLocoHeader :=
  ⟨1, 0, [67, 72, 69, 67, 75, 73, 78], 0⟩

/-! ## AES-128 block cipher (the cipher the external libaes crate applies
in CFB mode; embedded per FIPS-197) -/

/-- The AES S-box (FIPS-197 figure 7). -/
def sbox : List Nat :=
  [0x63, 0x7c, 0x77, 0x7b, 0xf2, 0x6b, 0x6f, 0xc5, 0x30, 0x01, 0x67, 0x2b, 0xfe, 0xd7, 0xab, 0x76,
   0xca, 0x82, 0xc9, 0x7d, 0xfa, 0x59, 0x47, 0xf0, 0xad, 0xd4, 0xa2, 0xaf, 0x9c, 0xa4, 0x72, 0xc0,
   0xb7, 0xfd, 0x93, 0x26, 0x36, 0x3f, 0xf7, 0xcc, 0x34, 0xa5, 0xe5, 0xf1, 0x71, 0xd8, 0x31, 0x15,
   0x04, 0xc7, 0x23, 0xc3, 0x18, 0x96, 0x05, 0x9a, 0x07, 0x12, 0x80, 0xe2, 0xeb, 0x27, 0xb2, 0x75,
   0x09, 0x83, 0x2c, 0x1a, 0x1b, 0x6e, 0x5a, 0xa0, 0x52, 0x3b, 0xd6, 0xb3, 0x29, 0xe3, 0x2f, 0x84,
   0x53, 0xd1, 0x00, 0xed, 0x20, 0xfc, 0xb1, 0x5b, 0x6a, 0xcb, 0xbe, 0x39, 0x4a, 0x4c, 0x58, 0xcf,
   0xd0, 0xef, 0xaa, 0xfb, 0x43, 0x4d, 0x33, 0x85, 0x45, 0xf9, 0x02, 0x7f, 0x50, 0x3c, 0x9f, 0xa8,
   0x51, 0xa3, 0x40, 0x8f, 0x92, 0x9d, 0x38, 0xf5, 0xbc, 0xb6, 0xda, 0x21, 0x10, 0xff, 0xf3, 0xd2,
   0xcd, 0x0c, 0x13, 0xec, 0x5f, 0x97, 0x44, 0x17, 0xc4, 0xa7, 0x7e, 0x3d, 0x64, 0x5d, 0x19, 0x73,
   0x60, 0x81, 0x4f, 0xdc, 0x22, 0x2a, 0x90, 0x88, 0x46, 0xee, 0xb8, 0x14, 0xde, 0x5e, 0x0b, 0xdb,
   0xe0, 0x32, 0x3a, 0x0a, 0x49, 0x06, 0x24, 0x5c, 0xc2, 0xd3, 0xac, 0x62, 0x91, 0x95, 0xe4, 0x79,
   0xe7, 0xc8, 0x37, 0x6d, 0x8d, 0xd5, 0x4e, 0xa9, 0x6c, 0x56, 0xf4, 0xea, 0x65, 0x7a, 0xae, 0x08,
   0xba, 0x78, 0x25, 0x2e, 0x1c, 0xa6, 0xb4, 0xc6, 0xe8, 0xdd, 0x74, 0x1f, 0x4b, 0xbd, 0x8b, 0x8a,
   0x70, 0x3e, 0xb5, 0x66, 0x48, 0x03, 0xf6, 0x0e, 0x61, 0x35, 0x57, 0xb9, 0x86, 0xc1, 0x1d, 0x9e,
   0xe1, 0xf8, 0x98, 0x11, 0x69, 0xd9, 0x8e, 0x94, 0x9b, 0x1e, 0x87, 0xe9, 0xce, 0x55, 0x28, 0xdf,
   0x8c, 0xa1, 0x89, 0x0d, 0xbf, 0xe6, 0x42, 0x68, 0x41, 0x99, 0x2d, 0x0f, 0xb0, 0x54, 0xbb, 0x16]

/-- S-box substitution of one byte. -/
def subByte (b : Nat) : Nat := sbox.getD (b % 256) 0

/-- Multiplication by x in GF(2^8) modulo x^8 + x^4 + x^3 + x + 1. -/
def xtime (b : Nat) : Nat :=
  if b < 0x80 then 2 * b else ((2 * b) ^^^ 0x1b) % 256

/-- Multiplication by 3 in GF(2^8). -/
def mul3 (b : Nat) : Nat := xtime b ^^^ b

/-- Cyclic left rotation of a 4-byte word. -/
def rotWord (w : List Nat) : List Nat := w.drop 1 ++ w.take 1

/-- S-box substitution on each byte of a word. -/
def subWord (w : List Nat) : List Nat := w.map subByte

/-- Bytewise xor of two words. -/
def xorWord (a b : List Nat) : List Nat := List.zipWith (· ^^^ ·) a b

/-- The AES round constants, `rconByte i` for round `i ∈ [1, 10]`. -/
def rconByte (i : Nat) : Nat :=
  [0x01, 0x02, 0x04, 0x08, 0x10, 0x20, 0x40, 0x80, 0x1b, 0x36].getD (i - 1) 0

/-- Appends `n` further expanded key words to `ws` (FIPS-197 §5.2). -/
def expandWords : Nat → List (List Nat) → List (List Nat)
  | 0, ws => ws
  | n + 1, ws =>
    let i := ws.length
    let prev := ws.getD (i - 1) []
    let t := if i % 4 == 0 then
        xorWord (subWord (rotWord prev)) [rconByte (i / 4), 0, 0, 0]
      else prev
    expandWords n (ws ++ [xorWord (ws.getD (i - 4) []) t])

/-- AES-128 key schedule: 44 expanded words from the 16 key bytes. -/
def keySchedule (key : List Nat) : List (List Nat) :=
  expandWords 40
    [key.take 4, (key.drop 4).take 4, (key.drop 8).take 4, (key.drop 12).take 4]

/-- Round key `r` as 16 bytes. -/
def roundKey (ws : List (List Nat)) (r : Nat) : List Nat :=
  ws.getD (4 * r) [] ++ ws.getD (4 * r + 1) [] ++
    ws.getD (4 * r + 2) [] ++ ws.getD (4 * r + 3) []

/-- AddRoundKey on the 16-byte state. -/
def addRoundKey (s k : List Nat) : List Nat :=
  List.ofFn fun i : Fin 16 => s.getD i 0 ^^^ k.getD i 0

/-- SubBytes on the 16-byte state. -/
def subBytesState (s : List Nat) : List Nat :=
  List.ofFn fun i : Fin 16 => subByte (s.getD i 0)

/-- ShiftRows on the column-major 16-byte state: row r rotates left by r. -/
def shiftRows (s : List Nat) : List Nat :=
  List.ofFn fun i : Fin 16 =>
    s.getD ((i : Nat) % 4 + 4 * (((i : Nat) / 4 + (i : Nat) % 4) % 4)) 0

/-- One output byte of MixColumns from the four bytes of its column. -/
def mixColumn (a0 a1 a2 a3 r : Nat) : Nat :=
  match r with
  | 0 => xtime a0 ^^^ mul3 a1 ^^^ a2 ^^^ a3
  | 1 => a0 ^^^ xtime a1 ^^^ mul3 a2 ^^^ a3
  | 2 => a0 ^^^ a1 ^^^ xtime a2 ^^^ mul3 a3
  | _ => mul3 a0 ^^^ a1 ^^^ a2 ^^^ xtime a3

/-- MixColumns on the column-major 16-byte state. -/
def mixColumns (s : List Nat) : List Nat :=
  List.ofFn fun i : Fin 16 =>
    let c := (i : Nat) / 4
    mixColumn (s.getD (4 * c) 0) (s.getD (4 * c + 1) 0)
      (s.getD (4 * c + 2) 0) (s.getD (4 * c + 3) 0) ((i : Nat) % 4)

/-- AES-128 block encryption (FIPS-197 §5.1): 10 rounds. -/
def aes128EncryptBlock (key block : List Nat) : List Nat :=
  let ws := keySchedule key
  let s0 := addRoundKey (block.take 16) (roundKey ws 0)
  let s9 := (List.range 9).foldl
    (fun s r => addRoundKey (mixColumns (shiftRows (subBytesState s))) (roundKey ws (r + 1))) s0
  addRoundKey (shiftRows (subBytesState s9)) (roundKey ws 10)

/-! ## CFB mode with 128-bit segments (libaes `cfb128_encrypt` /
`cfb128_decrypt`, used at main.rs:308 and main.rs:324) -/

/-- CFB-128 encryption: each 16-byte plaintext segment is xored with the
block encryption of the previous ciphertext segment (initially the IV);
a final partial segment uses a prefix of the keystream. -/
def cfbEncryptBlocks (E : List Nat → List Nat) (reg : List Nat) :
    List Nat → List Nat
  | [] => []
  | b :: rest =>
    let p := b :: rest
    let c := List.zipWith (· ^^^ ·) (p.take 16) (E reg)
    c ++ cfbEncryptBlocks E c (p.drop 16)
termination_by l => l.length
decreasing_by simp; omega

/-- CFB-128 decryption: each 16-byte ciphertext segment is xored with the
block encryption of the previous ciphertext segment (initially the IV). -/
def cfbDecryptBlocks (E : List Nat → List Nat) (reg : List Nat) :
    List Nat → List Nat
  | [] => []
  | b :: rest =>
    let c := b :: rest
    let p := List.zipWith (· ^^^ ·) (c.take 16) (E reg)
    p ++ cfbDecryptBlocks E (c.take 16) (c.drop 16)
termination_by l => l.length
decreasing_by simp; omega

/-- `Cipher::new_128(key)` followed by `cfb128_encrypt(iv, data)`. -/
def cfb128_encrypt (key iv data : List Nat) : List Nat :=
  cfbEncryptBlocks (aes128EncryptBlock key) iv data

/-- `Cipher::new_128(key)` followed by `cfb128_decrypt(iv, data)`. -/
def cfb128_decrypt (key iv data : List Nat) : List Nat :=
  cfbDecryptBlocks (aes128EncryptBlock key) iv data

/-- bincode serialization of `LocoSecureHeader` (main.rs:311): a
little-endian `u32` and the 16 IV bytes, 20 bytes. -/
def serializeLocoSecureHeader (h : LocoSecureHeader) : List Nat :=
  u32leBytes h.data_length ++ h.iv_key

/-- The secure envelope built in `get_checkin_data` (main.rs:308-311):
encrypt the packet bytes, set `data_length = (ciphertext length + 16) as
u32`, and concatenate the 20-byte header with the ciphertext. -/
def secure_buffer (key iv packet_buffer : List Nat) : List Nat :=
  let encrypted_aes_data := cfb128_encrypt key iv packet_buffer
  serializeLocoSecureHeader
      ⟨(encrypted_aes_data.length + 16) % 4294967296, iv⟩ ++ encrypted_aes_data

/-- The secure-mode receive path of `get_checkin_data` (main.rs:316-328)
over a stream of available bytes: read 20 header bytes, compute
`size = data_length as usize - 16` (a `usize` subtraction that panics or
wraps to an unsatisfiable allocation when `data_length < 16`), read
exactly `size` ciphertext bytes, decrypt with the IV from the header,
slice the first 22 decrypted bytes as the packet header (a panic when
fewer were produced) and everything after them as the body.  Every
failure is an unwrap panic, modelled by `none`. -/
def get_checkin_receive {T : Type} (dec : List Nat → Option T)
    (key stream : List Nat) : Option (ResponseLocoPacket T) :=
  if 20 ≤ stream.length then
    let header_buffer := stream.take 20
    let dl := u32le (header_buffer.take 4)
    if 16 ≤ dl then
      let size := dl - 16
      if size ≤ (stream.drop 20).length then
        let data_buffer := (stream.drop 20).take size
        let decrypted_buffer := cfb128_decrypt key (header_buffer.drop 4) data_buffer
        if 22 ≤ decrypted_buffer.length then
          parse_loco_packet dec (decrypted_buffer.take 22) (decrypted_buffer.drop 22)
        else none
      else none
    else none
  else none

/-- Stated from the spec's words for comparison with `parse_loco_header`:
the method-name field "with trailing zero bytes stripped". -/
def stripTrailingZeros (l : List Nat) : List Nat :=
  (l.reverse.dropWhile (fun b => b == 0)).reverse

/-! ## Helper lemmas -/

set_option maxRecDepth 100000 in
/-- The AES-128 embedding reproduces the FIPS-197 appendix C.1 example. -/
example : aes128EncryptBlock
    [0x00, 0x01, 0x02, 0x03, 0x04, 0x05, 0x06, 0x07,
     0x08, 0x09, 0x0a, 0x0b, 0x0c, 0x0d, 0x0e, 0x0f]
    [0x00, 0x11, 0x22, 0x33, 0x44, 0x55, 0x66, 0x77,
     0x88, 0x99, 0xaa, 0xbb, 0xcc, 0xdd, 0xee, 0xff]
    = [0x69, 0xc4, 0xe0, 0xd8, 0x6a, 0x7b, 0x04, 0x30,
       0xd8, 0xcd, 0xb7, 0x80, 0x70, 0xb4, 0xc5, 0x5a] := by decide

/-- The UTF-8 automaton on a few reference inputs: a truncated two-byte
form, a surrogate, an overlong form, and a valid three-byte scalar. -/
example : validUtf8 [0xC3] = false ∧ validUtf8 [0xED, 0xA0, 0x80] = false ∧
    validUtf8 [0xC0, 0xAF] = false ∧ validUtf8 [0xE2, 0x82, 0xAC] = true := by decide

theorem u32le_u32leBytes (n : Nat) : u32le (u32leBytes n) = n % 4294967296 := by
  simp [u32le, u32leBytes]
  omega

theorem u16le_u16leBytes (n : Nat) : u16le (u16leBytes n) = n % 65536 := by
  simp [u16le, u16leBytes]
  omega

theorem utf8Step_ascii (s : Nat × Nat × Nat) (b : Nat) (hs : s.1 = 0) (hb : b < 128) :
    utf8Step (some s) b = some (0, 0x80, 0xBF) := by
  obtain ⟨n, lo, hi⟩ := s
  simp at hs
  subst hs
  rw [utf8Step]
  rw [if_pos (by omega)]

theorem validUtf8_of_ascii (l : List Nat) (h : ∀ b ∈ l, b < 128) : validUtf8 l = true := by
  rw [validUtf8]
  suffices hs : ∀ lo hi, l.foldl utf8Step (some (0, lo, hi)) = some (0, 0x80, 0xBF) ∨
      l.foldl utf8Step (some (0, lo, hi)) = some (0, lo, hi) by
    rcases hs 0x80 0xBF with h1 | h1 <;> rw [h1]
  induction l with
  | nil => intro lo hi; right; rfl
  | cons b rest ih =>
    intro lo hi
    rw [List.foldl_cons, utf8Step_ascii (0, lo, hi) b rfl (h b (by simp))]
    rcases ih (fun x hx => h x (by simp [hx])) 0x80 0xBF with h1 | h1 <;>
      left <;> exact h1

theorem create_loco_raw_header_some (header : RequestLocoHeader) (bl : Nat)
    (hlen : header.method_name.length ≤ 11) :
    create_loco_raw_header header bl =
      some ⟨header.packet_id, header.status_code,
        header.method_name ++ List.replicate (11 - header.method_name.length) 0,
        header.body_type, bl⟩ := by
  rw [create_loco_raw_header, if_pos hlen]
  congr 1
  have h1 : (List.replicate 11 (0 : Nat)).take (11 - header.method_name.length)
      = List.replicate (11 - header.method_name.length) 0 := by
    rw [List.take_replicate]
    congr 1
    omega
  rw [h1]
  have h2 : (header.method_name ++
      List.replicate (11 - header.method_name.length) 0).length = 11 := by
    simp
    omega
  rw [List.take_of_length_le (le_of_eq h2)]

theorem serializeRawLocoHeader_length (raw : RawLocoHeader)
    (hmn : raw.method_name.length = 11) :
    (serializeRawLocoHeader raw).length = 22 := by
  simp [serializeRawLocoHeader, u32leBytes, u16leBytes, hmn]

/-- Decoding an encoded raw header recovers every field (method name up to
the removal of its zero bytes). -/
theorem parse_serializeRawLocoHeader (raw : RawLocoHeader)
    (hmn : raw.method_name.length = 11)
    (hvalid : validUtf8 raw.method_name = true) :
    parse_loco_header (serializeRawLocoHeader raw) =
      some ⟨raw.packet_id % 4294967296, raw.status_code % 65536,
        raw.method_name.filter (fun b => b != 0), raw.body_type % 256,
        raw.body_length % 4294967296⟩ := by
  have hshape6 : serializeRawLocoHeader raw =
      (u32leBytes raw.packet_id ++ u16leBytes raw.status_code) ++
        (raw.method_name ++ raw.body_type % 256 :: u32leBytes raw.body_length) := by
    simp [serializeRawLocoHeader]
  have h6 : (u32leBytes raw.packet_id ++ u16leBytes raw.status_code).length = 6 := by
    simp [u32leBytes, u16leBytes]
  have hdrop6 : (serializeRawLocoHeader raw).drop 6
      = raw.method_name ++ raw.body_type % 256 :: u32leBytes raw.body_length := by
    rw [hshape6, List.drop_left' h6]
  have htake : ((serializeRawLocoHeader raw).drop 6).take 11 = raw.method_name := by
    rw [hdrop6, List.take_left' hmn]
  have hlen : (serializeRawLocoHeader raw).length = 22 :=
    serializeRawLocoHeader_length raw hmn
  rw [parse_loco_header]
  rw [if_pos (by omega)]
  simp only [htake, hvalid, if_pos]
  have e1 : (serializeRawLocoHeader raw).take 4 = u32leBytes raw.packet_id := by
    rw [hshape6, List.append_assoc, List.take_left' (by simp [u32leBytes])]
  have e2 : ((serializeRawLocoHeader raw).drop 4).take 2 = u16leBytes raw.status_code := by
    rw [hshape6, List.append_assoc, List.drop_left' (by simp [u32leBytes]),
      List.take_left' (by simp [u16leBytes])]
  have e3 : (serializeRawLocoHeader raw).getD 17 0 = raw.body_type % 256 := by
    have hshape17 : serializeRawLocoHeader raw =
        ((u32leBytes raw.packet_id ++ u16leBytes raw.status_code) ++ raw.method_name) ++
          (raw.body_type % 256 :: u32leBytes raw.body_length) := by
      rw [hshape6]
      simp [List.append_assoc]
    have h17 : ((u32leBytes raw.packet_id ++ u16leBytes raw.status_code) ++
        raw.method_name).length = 17 := by
      simp [u32leBytes, u16leBytes, hmn]
    rw [hshape17, List.getD_append_right _ _ _ _ (le_of_eq h17), h17]
    simp
  have e4 : ((serializeRawLocoHeader raw).drop 18).take 4 = u32leBytes raw.body_length := by
    have hshape18 : serializeRawLocoHeader raw =
        (((u32leBytes raw.packet_id ++ u16leBytes raw.status_code) ++ raw.method_name) ++
          [raw.body_type % 256]) ++ u32leBytes raw.body_length := by
      simp [serializeRawLocoHeader]
    have h18 : ((((u32leBytes raw.packet_id ++ u16leBytes raw.status_code) ++
        raw.method_name) ++ [raw.body_type % 256])).length = 18 := by
      simp [u32leBytes, u16leBytes, hmn]
    rw [hshape18, List.drop_left' h18,
      List.take_of_length_le (by simp [u32leBytes])]
  rw [e1, e2, e3, e4]
  simp [u32le_u32leBytes, u16le_u16leBytes]

theorem aes128EncryptBlock_length (key block : List Nat) :
    (aes128EncryptBlock key block).length = 16 := by
  simp [aes128EncryptBlock, addRoundKey]

theorem cfbEncryptBlocks_cons (E : List Nat → List Nat) (reg : List Nat)
    (b : Nat) (rest : List Nat) :
    cfbEncryptBlocks E reg (b :: rest) =
      List.zipWith (· ^^^ ·) ((b :: rest).take 16) (E reg) ++
        cfbEncryptBlocks E (List.zipWith (· ^^^ ·) ((b :: rest).take 16) (E reg))
          ((b :: rest).drop 16) := by
  rw [cfbEncryptBlocks]

theorem cfbDecryptBlocks_of_ne_nil (E : List Nat → List Nat) (reg c : List Nat)
    (h : c ≠ []) :
    cfbDecryptBlocks E reg c =
      List.zipWith (· ^^^ ·) (c.take 16) (E reg) ++
        cfbDecryptBlocks E (c.take 16) (c.drop 16) := by
  cases c with
  | nil => exact absurd rfl h
  | cons x xs => rw [cfbDecryptBlocks]

theorem zipWith_xor_cancel (p ks : List Nat) (h : p.length ≤ ks.length) :
    List.zipWith (· ^^^ ·) (List.zipWith (· ^^^ ·) p ks) ks = p := by
  induction p generalizing ks with
  | nil => simp
  | cons a p ih =>
    cases ks with
    | nil => simp at h
    | cons k ks =>
      simp only [List.zipWith_cons_cons]
      rw [Nat.xor_cancel_right]
      rw [ih ks (by simp at h; omega)]

theorem cfbEncryptBlocks_length_aux (E : List Nat → List Nat)
    (hE : ∀ r, (E r).length = 16) :
    ∀ (n : Nat) (p reg : List Nat), p.length ≤ n →
      (cfbEncryptBlocks E reg p).length = p.length := by
  intro n
  induction n with
  | zero =>
    intro p reg h
    have hp : p = [] := List.eq_nil_of_length_eq_zero (Nat.le_zero.mp h)
    subst hp
    simp [cfbEncryptBlocks]
  | succ n ih =>
    intro p reg h
    cases p with
    | nil => simp [cfbEncryptBlocks]
    | cons b rest =>
      rw [cfbEncryptBlocks_cons, List.length_append, List.length_zipWith, hE]
      rw [ih ((b :: rest).drop 16) _ (by simp at h ⊢; omega)]
      simp
      omega

theorem cfbBlocks_round_trip_aux (E : List Nat → List Nat)
    (hE : ∀ r, (E r).length = 16) :
    ∀ (n : Nat) (p reg : List Nat), p.length ≤ n →
      cfbDecryptBlocks E reg (cfbEncryptBlocks E reg p) = p := by
  intro n
  induction n with
  | zero =>
    intro p reg h
    have hp : p = [] := List.eq_nil_of_length_eq_zero (Nat.le_zero.mp h)
    subst hp
    simp [cfbEncryptBlocks, cfbDecryptBlocks]
  | succ n ih =>
    intro p reg h
    cases p with
    | nil => simp [cfbEncryptBlocks, cfbDecryptBlocks]
    | cons b rest =>
      rw [cfbEncryptBlocks_cons]
      have hkl : (E reg).length = 16 := hE reg
      have htl : ((b :: rest).take 16).length = min (rest.length + 1) 16 := by
        simp
        omega
      have hcl : (List.zipWith (· ^^^ ·) ((b :: rest).take 16) (E reg)).length
          = min (rest.length + 1) 16 := by
        rw [List.length_zipWith, htl, hkl]
        omega
      by_cases h16 : rest.length + 1 ≤ 16
      · have hdrop : (b :: rest).drop 16 = [] :=
          List.drop_eq_nil_of_le (by simp; omega)
        rw [hdrop, show cfbEncryptBlocks E
            (List.zipWith (· ^^^ ·) ((b :: rest).take 16) (E reg)) [] = []
          from by simp [cfbEncryptBlocks], List.append_nil]
        have hcnil : List.zipWith (· ^^^ ·) ((b :: rest).take 16) (E reg) ≠ [] := by
          intro hx
          rw [hx] at hcl
          simp at hcl
          omega
        rw [cfbDecryptBlocks_of_ne_nil E reg _ hcnil]
        have hctake : (List.zipWith (· ^^^ ·) ((b :: rest).take 16) (E reg)).take 16
            = List.zipWith (· ^^^ ·) ((b :: rest).take 16) (E reg) :=
          List.take_of_length_le (by omega)
        have hcdrop : (List.zipWith (· ^^^ ·) ((b :: rest).take 16) (E reg)).drop 16
            = [] := List.drop_eq_nil_of_le (by omega)
        rw [hctake, hcdrop, show cfbDecryptBlocks E
            (List.zipWith (· ^^^ ·) ((b :: rest).take 16) (E reg)) [] = []
          from by simp [cfbDecryptBlocks], List.append_nil]
        rw [zipWith_xor_cancel _ _ (by omega)]
        exact List.take_of_length_le (by simp; omega)
      · have hcl16 : (List.zipWith (· ^^^ ·) ((b :: rest).take 16) (E reg)).length = 16 := by
          omega
        have hcnil : List.zipWith (· ^^^ ·) ((b :: rest).take 16) (E reg) ++
            cfbEncryptBlocks E (List.zipWith (· ^^^ ·) ((b :: rest).take 16) (E reg))
              ((b :: rest).drop 16) ≠ [] := by
          intro hx
          have h0 := (List.append_eq_nil.mp hx).1
          rw [h0] at hcl16
          simp at hcl16
        rw [cfbDecryptBlocks_of_ne_nil E reg _ hcnil]
        rw [List.take_left' hcl16, List.drop_left' hcl16]
        rw [ih ((b :: rest).drop 16) _ (by simp at h ⊢; omega)]
        rw [zipWith_xor_cancel _ _ (by omega)]
        exact List.take_append_drop 16 (b :: rest)

theorem cfb128_encrypt_length (key iv data : List Nat) :
    (cfb128_encrypt key iv data).length = data.length :=
  cfbEncryptBlocks_length_aux (aes128EncryptBlock key)
    (fun r => aes128EncryptBlock_length key r) data.length data iv le_rfl

theorem serializeRawLocoHeader_assoc (raw : RawLocoHeader) :
    serializeRawLocoHeader raw =
      u32leBytes raw.packet_id ++ (u16leBytes raw.status_code ++
        (raw.method_name ++ raw.body_type % 256 :: u32leBytes raw.body_length)) := by
  simp [serializeRawLocoHeader]

theorem serializeRawLocoHeader_take4 (raw : RawLocoHeader) :
    (serializeRawLocoHeader raw).take 4 = u32leBytes raw.packet_id := by
  rw [serializeRawLocoHeader_assoc, List.take_left' (by simp [u32leBytes])]

theorem serializeRawLocoHeader_drop4take2 (raw : RawLocoHeader) :
    ((serializeRawLocoHeader raw).drop 4).take 2 = u16leBytes raw.status_code := by
  rw [serializeRawLocoHeader_assoc, List.drop_left' (by simp [u32leBytes]),
    List.take_left' (by simp [u16leBytes])]

theorem serializeRawLocoHeader_field (raw : RawLocoHeader)
    (hmn : raw.method_name.length = 11) :
    ((serializeRawLocoHeader raw).drop 6).take 11 = raw.method_name := by
  have hshape : serializeRawLocoHeader raw =
      (u32leBytes raw.packet_id ++ u16leBytes raw.status_code) ++
        (raw.method_name ++ raw.body_type % 256 :: u32leBytes raw.body_length) := by
    simp [serializeRawLocoHeader]
  rw [hshape, List.drop_left' (by simp [u32leBytes, u16leBytes]), List.take_left' hmn]

theorem serializeRawLocoHeader_drop18take4 (raw : RawLocoHeader)
    (hmn : raw.method_name.length = 11) :
    ((serializeRawLocoHeader raw).drop 18).take 4 = u32leBytes raw.body_length := by
  have hshape : serializeRawLocoHeader raw =
      (((u32leBytes raw.packet_id ++ u16leBytes raw.status_code) ++ raw.method_name) ++
        [raw.body_type % 256]) ++ u32leBytes raw.body_length := by
    simp [serializeRawLocoHeader]
  rw [hshape, List.drop_left' (by simp [u32leBytes, u16leBytes, hmn]),
    List.take_of_length_le (by simp [u32leBytes])]

theorem padded_method_name_length (mn : List Nat) (h : mn.length ≤ 11) :
    (mn ++ List.replicate (11 - mn.length) 0).length = 11 := by
  simp
  omega

theorem create_loco_raw_header_le (header : RequestLocoHeader) (bl : Nat)
    (raw : RawLocoHeader) (h : create_loco_raw_header header bl = some raw) :
    header.method_name.length ≤ 11 := by
  by_contra hlen
  rw [create_loco_raw_header, if_neg hlen] at h
  cases h

/-- C1: for every session key, every IV and every plaintext,
AES-128-CFB decryption (128-bit segments) of the AES-128-CFB encryption
of the plaintext with the same key and IV returns the plaintext
(main.rs:308 and main.rs:324). -/
theorem cfb128_decrypt_encrypt (key iv plaintext : List Nat) :
    cfb128_decrypt key iv (cfb128_encrypt key iv plaintext) = plaintext :=
  cfbBlocks_round_trip_aux (aes128EncryptBlock key)
    (fun r => aes128EncryptBlock_length key r) plaintext.length plaintext iv le_rfl

/-- C6: encoding a header whose method name is longer than 11 bytes fails
(the `usize` subtraction in `create_loco_raw_header` panics): no raw
header record is produced and nothing is silently truncated. -/
theorem create_loco_raw_header_long_name (header : RequestLocoHeader)
    (body_length : Nat) (h : 11 < header.method_name.length) :
    create_loco_raw_header header body_length = none := by
  rw [create_loco_raw_header, if_neg (by omega)]

theorem create_loco_raw_header_long_name_witness :
    11 < (List.replicate 12 65).length ∧
      create_loco_raw_header ⟨1, 0, List.replicate 12 65, 0⟩ 0 = none :=
  ⟨by decide, create_loco_raw_header_long_name ⟨1, 0, List.replicate 12 65, 0⟩ 0 (by decide)⟩

/-- C4: for every encodable header (method name at most 11 bytes) the
encoded record is exactly 22 bytes, its integer fields little-endian, and
the method-name field is exactly 11 bytes, the name right-padded with
zero bytes; encoding the CHECKIN header yields the 7 bytes of CHECKIN
followed by 4 zero bytes in that field, and decoding yields CHECKIN. -/
theorem create_header_layout (header : RequestLocoHeader) (n : Nat)
    (raw : RawLocoHeader) (h : create_loco_raw_header header n = some raw) :
    (serializeRawLocoHeader raw).length = 22 ∧
    ((serializeRawLocoHeader raw).drop 6).take 11
        = header.method_name ++ List.replicate (11 - header.method_name.length) 0 ∧
    u32le ((serializeRawLocoHeader raw).take 4) = header.packet_id % 4294967296 ∧
    u16le (((serializeRawLocoHeader raw).drop 4).take 2) = header.status_code % 65536 ∧
    u32le (((serializeRawLocoHeader raw).drop 18).take 4) = n % 4294967296 ∧
    (∃ rawc, create_loco_raw_header checkinRequestHeader 0 = some rawc ∧
      ((serializeRawLocoHeader rawc).drop 6).take 11
          = [67, 72, 69, 67, 75, 73, 78, 0, 0, 0, 0] ∧
      (parse_loco_header (serializeRawLocoHeader rawc)).map ResponseLocoHeader.method_name
          = some [67, 72, 69, 67, 75, 73, 78]) := by
  have hlen := create_loco_raw_header_le header n raw h
  rw [create_loco_raw_header_some header n hlen] at h
  have hraw := (Option.some.inj h).symm
  subst hraw
  have hmn : (⟨header.packet_id, header.status_code,
      header.method_name ++ List.replicate (11 - header.method_name.length) 0,
      header.body_type, n⟩ : RawLocoHeader).method_name.length = 11 :=
    padded_method_name_length header.method_name hlen
  refine ⟨serializeRawLocoHeader_length _ hmn, serializeRawLocoHeader_field _ hmn, ?_, ?_, ?_, ?_⟩
  · rw [serializeRawLocoHeader_take4, u32le_u32leBytes]
  · rw [serializeRawLocoHeader_drop4take2, u16le_u16leBytes]
  · rw [serializeRawLocoHeader_drop18take4 _ hmn, u32le_u32leBytes]
  · exact ⟨⟨1, 0, [67, 72, 69, 67, 75, 73, 78, 0, 0, 0, 0], 0, 0⟩,
      by decide, by decide, by decide⟩

theorem create_header_layout_witness :
    create_loco_raw_header checkinRequestHeader 5
        = some ⟨1, 0, [67, 72, 69, 67, 75, 73, 78, 0, 0, 0, 0], 0, 5⟩ ∧
      (serializeRawLocoHeader ⟨1, 0, [67, 72, 69, 67, 75, 73, 78, 0, 0, 0, 0], 0, 5⟩).length = 22 :=
  ⟨by decide,
    (create_header_layout checkinRequestHeader 5 _ (by decide)).1⟩

/-- C2 (amended): for every header whose method name is at most 11 ASCII
bytes none of which is NUL, decoding the encoding returns the header with
packet_id, status_code, method_name and body_type unchanged and
body_length equal to the supplied length.  (The NUL-free restriction is
forced: decoding removes every zero byte, see the counterexample.) -/
theorem header_round_trip (header : RequestLocoHeader) (n : Nat)
    (hlen : header.method_name.length ≤ 11)
    (hascii : ∀ b ∈ header.method_name, b < 128)
    (hnz : ∀ b ∈ header.method_name, b ≠ 0)
    (hpid : header.packet_id < 4294967296)
    (hsc : header.status_code < 65536)
    (hbt : header.body_type < 256)
    (hn : n < 4294967296) :
    ∃ raw, create_loco_raw_header header n = some raw ∧
      parse_loco_header (serializeRawLocoHeader raw)
        = some ⟨header.packet_id, header.status_code, header.method_name,
            header.body_type, n⟩ := by
  refine ⟨_, create_loco_raw_header_some header n hlen, ?_⟩
  have hmn : (header.method_name ++
      List.replicate (11 - header.method_name.length) 0).length = 11 :=
    padded_method_name_length header.method_name hlen
  have hvalid : validUtf8 (header.method_name ++
      List.replicate (11 - header.method_name.length) 0) = true := by
    apply validUtf8_of_ascii
    intro b hb
    rcases List.mem_append.mp hb with hb | hb
    · exact hascii b hb
    · rw [List.eq_of_mem_replicate hb]
      omega
  rw [parse_serializeRawLocoHeader _ hmn hvalid]
  congr 1
  have hfilter : (header.method_name ++
      List.replicate (11 - header.method_name.length) 0).filter (fun b => b != 0)
      = header.method_name := by
    rw [List.filter_append]
    rw [List.filter_eq_self.mpr (fun a ha => by simpa using hnz a ha)]
    simp [List.filter_replicate]
  simp only [hfilter]
  congr 1 <;> omega

theorem header_round_trip_witness :
    ∃ raw, create_loco_raw_header checkinRequestHeader 3 = some raw ∧
      parse_loco_header (serializeRawLocoHeader raw)
        = some ⟨1, 0, [67, 72, 69, 67, 75, 73, 78], 0, 3⟩ :=
  header_round_trip checkinRequestHeader 3 (by decide)
    (by decide) (by decide) (by decide) (by decide) (by decide) (by decide)

/-- C2 counterexample: the method name consisting of the single ASCII
byte NUL is at most 11 ASCII bytes, yet its encoding decodes to the empty
method name, so `decode(encode(h, n)) == h` fails as stated. -/
theorem header_round_trip_nul_counterexample :
    (create_loco_raw_header ⟨5, 7, [0], 3⟩ 9).map
        (fun raw => (parse_loco_header (serializeRawLocoHeader raw)).map
          ResponseLocoHeader.method_name)
      = some (some []) ∧ ([] : List Nat) ≠ [0] := by decide

/-- C5 (amended): header decoding fails (panics) when fewer than 22 bytes
are supplied and when the 11 method-name bytes are not valid UTF-8;
otherwise the returned method name is the 11-byte field with EVERY zero
byte removed — interior NUL bytes are removed too, not preserved (see the
counterexample). -/
theorem parse_loco_header_spec :
    (∀ buf : List Nat, buf.length < 22 → parse_loco_header buf = none) ∧
    (∀ buf : List Nat, 22 ≤ buf.length → validUtf8 ((buf.drop 6).take 11) = false →
      parse_loco_header buf = none) ∧
    (∀ pre mid post : List Nat, pre.length = 6 → mid.length = 11 → post.length = 5 →
      validUtf8 mid = true →
      (parse_loco_header (pre ++ (mid ++ post))).map ResponseLocoHeader.method_name
        = some (mid.filter (fun b => b != 0))) := by
  refine ⟨?_, ?_, ?_⟩
  · intro buf h
    rw [parse_loco_header, if_neg (by omega)]
  · intro buf h hval
    rw [parse_loco_header, if_pos h]
    simp [hval]
  · intro pre mid post hpre hmid hpost hval
    have hlen : (pre ++ (mid ++ post)).length = 22 := by
      simp [hpre, hmid, hpost]
    have hdrop : (pre ++ (mid ++ post)).drop 6 = mid ++ post := List.drop_left' hpre
    have htake : ((pre ++ (mid ++ post)).drop 6).take 11 = mid := by
      rw [hdrop, List.take_left' hmid]
    rw [parse_loco_header, if_pos (by omega)]
    simp only [htake, hval, if_pos]
    rfl

theorem parse_loco_header_spec_witness :
    parse_loco_header [] = none ∧
    parse_loco_header (List.replicate 6 0 ++
        ([255, 255, 255, 255, 255, 255, 255, 255, 255, 255, 255] ++
          List.replicate 5 0)) = none ∧
    (parse_loco_header ([0, 0, 0, 0, 0, 0] ++
        ([72, 73, 0, 0, 0, 0, 0, 0, 0, 0, 0] ++ [0, 0, 0, 0, 0]))).map
      ResponseLocoHeader.method_name = some [72, 73] :=
  ⟨parse_loco_header_spec.1 [] (by decide),
   parse_loco_header_spec.2.1 _ (by decide) (by decide),
   (parse_loco_header_spec.2.2 [0, 0, 0, 0, 0, 0]
       [72, 73, 0, 0, 0, 0, 0, 0, 0, 0, 0] [0, 0, 0, 0, 0]
       (by decide) (by decide) (by decide) (by decide)).trans (by decide)⟩

/-- C5 counterexample: a 22-byte buffer whose method-name field is
`A NUL B` followed by eight NUL padding bytes decodes to method name
`AB`: the interior zero byte is removed as well, not only trailing ones. -/
theorem parse_method_name_interior_nul_counterexample :
    (parse_loco_header ([1, 0, 0, 0, 0, 0] ++
        ([65, 0, 66, 0, 0, 0, 0, 0, 0, 0, 0] ++ [0, 0, 0, 0, 0]))).map
      ResponseLocoHeader.method_name = some [65, 66] ∧
    stripTrailingZeros [65, 0, 66, 0, 0, 0, 0, 0, 0, 0, 0] = [65, 0, 66] ∧
    ([65, 66] : List Nat) ≠ [65, 0, 66] := by decide

/-- C7: assembling a packet encodes the header with `body_length` equal to
the serialized body's length and returns the 22 header bytes immediately
followed by the body bytes. -/
theorem create_loco_packet_layout (header : RequestLocoHeader) (body_vec : List Nat)
    (hlen : header.method_name.length ≤ 11)
    (hb : body_vec.length < 4294967296) :
    ∃ raw, create_loco_raw_header header (body_vec.length % 4294967296) = some raw ∧
      raw.body_length = body_vec.length ∧
      create_loco_packet header body_vec = some (serializeRawLocoHeader raw ++ body_vec) ∧
      (serializeRawLocoHeader raw).length = 22 ∧
      (serializeRawLocoHeader raw ++ body_vec).take 22 = serializeRawLocoHeader raw ∧
      (serializeRawLocoHeader raw ++ body_vec).drop 22 = body_vec := by
  have hmn : (header.method_name ++
      List.replicate (11 - header.method_name.length) 0).length = 11 :=
    padded_method_name_length header.method_name hlen
  refine ⟨_, create_loco_raw_header_some header _ hlen, ?_, ?_, ?_, ?_, ?_⟩
  · simpa using Nat.mod_eq_of_lt hb
  · rw [create_loco_packet, create_loco_raw_header_some header _ hlen, Option.map_some']
  · exact serializeRawLocoHeader_length _ hmn
  · exact List.take_left' (serializeRawLocoHeader_length _ hmn)
  · exact List.drop_left' (serializeRawLocoHeader_length _ hmn)

theorem create_loco_packet_layout_witness :
    ∃ raw, create_loco_raw_header checkinRequestHeader (([7, 8, 9] : List Nat).length % 4294967296)
        = some raw ∧
      raw.body_length = ([7, 8, 9] : List Nat).length ∧
      create_loco_packet checkinRequestHeader [7, 8, 9]
        = some (serializeRawLocoHeader raw ++ [7, 8, 9]) ∧
      (serializeRawLocoHeader raw).length = 22 ∧
      (serializeRawLocoHeader raw ++ [7, 8, 9]).take 22 = serializeRawLocoHeader raw ∧
      (serializeRawLocoHeader raw ++ [7, 8, 9]).drop 22 = [7, 8, 9] :=
  create_loco_packet_layout checkinRequestHeader [7, 8, 9] (by decide) (by decide)

/-- C8: the handshake preamble is 12 bytes; its `rsa_encrypt_type` field
is 14 and its `aes_encrypt_type` field is 2; its `data_length` field
equals the byte length of the RSA-encrypted session-key blob that
immediately follows it. -/
theorem handshake_buffer_layout (blob : List Nat) (h : blob.length < 4294967296) :
    (serializeLocoHandshakeHeader ⟨blob.length % 4294967296, 14, 2⟩).length = 12 ∧
    u32le ((handshake_buffer blob).take 4) = blob.length ∧
    u32le (((handshake_buffer blob).drop 4).take 4) = 14 ∧
    u32le (((handshake_buffer blob).drop 8).take 4) = 2 ∧
    (handshake_buffer blob).drop 12 = blob := by
  refine ⟨?_, ?_, ?_, ?_, ?_⟩
  · simp [serializeLocoHandshakeHeader, u32leBytes]
  · simp [handshake_buffer, serializeLocoHandshakeHeader, u32leBytes, u32le]
    omega
  · simp [handshake_buffer, serializeLocoHandshakeHeader, u32leBytes, u32le]
  · simp [handshake_buffer, serializeLocoHandshakeHeader, u32leBytes, u32le]
  · simp [handshake_buffer, serializeLocoHandshakeHeader, u32leBytes]

theorem handshake_buffer_layout_witness :
    (serializeLocoHandshakeHeader ⟨([9, 9, 9] : List Nat).length % 4294967296, 14, 2⟩).length = 12 ∧
    u32le ((handshake_buffer [9, 9, 9]).take 4) = ([9, 9, 9] : List Nat).length ∧
    u32le (((handshake_buffer [9, 9, 9]).drop 4).take 4) = 14 ∧
    u32le (((handshake_buffer [9, 9, 9]).drop 8).take 4) = 2 ∧
    (handshake_buffer [9, 9, 9]).drop 12 = [9, 9, 9] :=
  handshake_buffer_layout [9, 9, 9] (by decide)

/-- C9: in secure-session mode the produced envelope is a 4-byte
little-endian length equal to ciphertext length + 16, then the 16-byte
IV, then the ciphertext; the ciphertext decrypts back to exactly one
plain packet: 22 header bytes followed by the body bytes. -/
theorem secure_envelope_layout (key iv : List Nat) (header : RequestLocoHeader)
    (body_vec packet_buffer : List Nat)
    (hiv : iv.length = 16)
    (hp : create_loco_packet header body_vec = some packet_buffer)
    (hsz : packet_buffer.length + 16 < 4294967296) :
    secure_buffer key iv packet_buffer
        = u32leBytes (packet_buffer.length + 16) ++ iv ++ cfb128_encrypt key iv packet_buffer ∧
    (cfb128_encrypt key iv packet_buffer).length = packet_buffer.length ∧
    u32le ((secure_buffer key iv packet_buffer).take 4)
        = (cfb128_encrypt key iv packet_buffer).length + 16 ∧
    ((secure_buffer key iv packet_buffer).drop 4).take 16 = iv ∧
    (secure_buffer key iv packet_buffer).drop 20 = cfb128_encrypt key iv packet_buffer ∧
    cfb128_decrypt key iv (cfb128_encrypt key iv packet_buffer) = packet_buffer ∧
    ∃ raw, create_loco_raw_header header (body_vec.length % 4294967296) = some raw ∧
      packet_buffer.take 22 = serializeRawLocoHeader raw ∧
      packet_buffer.drop 22 = body_vec := by
  have hencl : (cfb128_encrypt key iv packet_buffer).length = packet_buffer.length :=
    cfb128_encrypt_length key iv packet_buffer
  have hshape : secure_buffer key iv packet_buffer
      = u32leBytes (packet_buffer.length + 16) ++ iv ++ cfb128_encrypt key iv packet_buffer := by
    rw [secure_buffer, serializeLocoSecureHeader]
    rw [hencl, Nat.mod_eq_of_lt hsz]
  refine ⟨hshape, hencl, ?_, ?_, ?_, ?_, ?_⟩
  · rw [hshape, List.append_assoc, List.take_left' (by simp [u32leBytes]),
      u32le_u32leBytes, hencl, Nat.mod_eq_of_lt hsz]
  · rw [hshape, List.append_assoc, List.drop_left' (by simp [u32leBytes]),
      List.take_left' hiv]
  · rw [hshape, List.drop_left' (by simp [u32leBytes, hiv])]
  · exact cfbBlocks_round_trip_aux (aes128EncryptBlock key)
      (fun r => aes128EncryptBlock_length key r) packet_buffer.length packet_buffer iv le_rfl
  · obtain ⟨raw, hraw, hpb⟩ := Option.map_eq_some'.mp hp
    have hlen := create_loco_raw_header_le header _ raw hraw
    have hmn : raw.method_name.length = 11 := by
      rw [create_loco_raw_header_some header _ hlen] at hraw
      rw [← Option.some.inj hraw]
      exact padded_method_name_length header.method_name hlen
    refine ⟨raw, hraw, ?_, ?_⟩
    · rw [← hpb, List.take_left' (serializeRawLocoHeader_length raw hmn)]
    · rw [← hpb, List.drop_left' (serializeRawLocoHeader_length raw hmn)]

theorem secure_envelope_layout_witness :
    create_loco_packet checkinRequestHeader [] =
        some [1, 0, 0, 0, 0, 0, 67, 72, 69, 67, 75, 73, 78, 0, 0, 0, 0, 0, 0, 0, 0, 0] ∧
      secure_buffer (List.replicate 16 0) (List.replicate 16 1)
          [1, 0, 0, 0, 0, 0, 67, 72, 69, 67, 75, 73, 78, 0, 0, 0, 0, 0, 0, 0, 0, 0]
        = u32leBytes (([1, 0, 0, 0, 0, 0, 67, 72, 69, 67, 75, 73, 78, 0, 0, 0, 0, 0,
            0, 0, 0, 0] : List Nat).length + 16) ++ List.replicate 16 1 ++
            cfb128_encrypt (List.replicate 16 0) (List.replicate 16 1)
              [1, 0, 0, 0, 0, 0, 67, 72, 69, 67, 75, 73, 78, 0, 0, 0, 0, 0, 0, 0, 0, 0] :=
  ⟨by decide,
    (secure_envelope_layout (List.replicate 16 0) (List.replicate 16 1)
      checkinRequestHeader [] _ (by decide) (by decide) (by decide)).1⟩

/-- C10: `parse_loco_packet` performs no comparison of the header's
`body_length` with the body buffer: whenever the header parses and the
body decodes, a packet is returned even though `body_length` differs from
the buffer's length; and the secure-mode receive path hands everything
past offset 22 of the decrypted buffer to the body decoder regardless of
`body_length`. -/
theorem parse_loco_packet_ignores_body_length :
    (∀ (T : Type) (dec : List Nat → Option T) (header_buffer data_buffer : List Nat)
        (rh : ResponseLocoHeader) (v : T),
      parse_loco_header header_buffer = some rh → dec data_buffer = some v →
      rh.body_length ≠ data_buffer.length →
      parse_loco_packet dec header_buffer data_buffer = some ⟨rh, v⟩) ∧
    (∀ (T : Type) (dec : List Nat → Option T) (key iv plain : List Nat),
      iv.length = 16 → 22 ≤ plain.length → plain.length + 16 < 4294967296 →
      get_checkin_receive dec key
          (u32leBytes (plain.length + 16) ++ iv ++ cfb128_encrypt key iv plain)
        = parse_loco_packet dec (plain.take 22) (plain.drop 22)) := by
  constructor
  · intro T dec header_buffer data_buffer rh v h1 h2 _
    rw [parse_loco_packet, h1, h2]
  · intro T dec key iv plain hiv h22 hsz
    have hencl : (cfb128_encrypt key iv plain).length = plain.length :=
      cfb128_encrypt_length key iv plain
    have h20 : (u32leBytes (plain.length + 16) ++ iv).length = 20 := by
      simp [u32leBytes, hiv]
    have hshape : u32leBytes (plain.length + 16) ++ iv ++ cfb128_encrypt key iv plain
        = (u32leBytes (plain.length + 16) ++ iv) ++ cfb128_encrypt key iv plain := by
      simp [List.append_assoc]
    have hslen : (u32leBytes (plain.length + 16) ++ iv ++
        cfb128_encrypt key iv plain).length = 20 + plain.length := by
      simp [u32leBytes, hiv, hencl]
      omega
    rw [get_checkin_receive]
    rw [if_pos (by omega)]
    have htake20 : (u32leBytes (plain.length + 16) ++ iv ++
        cfb128_encrypt key iv plain).take 20 = u32leBytes (plain.length + 16) ++ iv := by
      rw [hshape, List.take_left' h20]
    have hdrop20 : (u32leBytes (plain.length + 16) ++ iv ++
        cfb128_encrypt key iv plain).drop 20 = cfb128_encrypt key iv plain := by
      rw [hshape, List.drop_left' h20]
    simp only [htake20, hdrop20]
    have htake4 : (u32leBytes (plain.length + 16) ++ iv).take 4
        = u32leBytes (plain.length + 16) := List.take_left' (by simp [u32leBytes])
    have hdrop4 : (u32leBytes (plain.length + 16) ++ iv).drop 4 = iv :=
      List.drop_left' (by simp [u32leBytes])
    simp only [htake4, hdrop4, u32le_u32leBytes, Nat.mod_eq_of_lt hsz]
    rw [if_pos (by omega)]
    rw [if_pos (by rw [hencl]; omega)]
    have hdata : (cfb128_encrypt key iv plain).take (plain.length + 16 - 16)
        = cfb128_encrypt key iv plain := by
      apply List.take_of_length_le
      omega
    rw [hdata]
    have hdec : cfb128_decrypt key iv (cfb128_encrypt key iv plain) = plain :=
      cfbBlocks_round_trip_aux (aes128EncryptBlock key)
        (fun r => aes128EncryptBlock_length key r) plain.length plain iv le_rfl
    rw [hdec]
    rw [if_pos h22]

theorem parse_loco_packet_ignores_body_length_witness :
    parse_loco_packet (fun l => if l = [1, 2, 3] then some 42 else none)
        [1, 0, 0, 0, 0, 0, 67, 72, 69, 67, 75, 73, 78, 0, 0, 0, 0, 0, 231, 3, 0, 0]
        [1, 2, 3]
      = some ⟨⟨1, 0, [67, 72, 69, 67, 75, 73, 78], 0, 999⟩, 42⟩ ∧
    get_checkin_receive (fun l => if l = [1, 2, 3] then some 42 else none)
        (List.replicate 16 0)
        (u32leBytes (([1, 0, 0, 0, 0, 0, 67, 72, 69, 67, 75, 73, 78, 0, 0, 0, 0, 0,
            231, 3, 0, 0] : List Nat).length + 16) ++ List.replicate 16 2 ++
          cfb128_encrypt (List.replicate 16 0) (List.replicate 16 2)
            [1, 0, 0, 0, 0, 0, 67, 72, 69, 67, 75, 73, 78, 0, 0, 0, 0, 0, 231, 3, 0, 0])
      = parse_loco_packet (fun l => if l = [1, 2, 3] then some 42 else none)
          (([1, 0, 0, 0, 0, 0, 67, 72, 69, 67, 75, 73, 78, 0, 0, 0, 0, 0,
            231, 3, 0, 0] : List Nat).take 22)
          (([1, 0, 0, 0, 0, 0, 67, 72, 69, 67, 75, 73, 78, 0, 0, 0, 0, 0,
            231, 3, 0, 0] : List Nat).drop 22) :=
  ⟨parse_loco_packet_ignores_body_length.1 Nat
      (fun l => if l = [1, 2, 3] then some 42 else none)
      [1, 0, 0, 0, 0, 0, 67, 72, 69, 67, 75, 73, 78, 0, 0, 0, 0, 0, 231, 3, 0, 0]
      [1, 2, 3] ⟨1, 0, [67, 72, 69, 67, 75, 73, 78], 0, 999⟩ 42
      (by decide) (by decide) (by decide),
   parse_loco_packet_ignores_body_length.2 Nat
      (fun l => if l = [1, 2, 3] then some 42 else none)
      (List.replicate 16 0) (List.replicate 16 2)
      [1, 0, 0, 0, 0, 0, 67, 72, 69, 67, 75, 73, 78, 0, 0, 0, 0, 0, 231, 3, 0, 0]
      (by decide) (by decide) (by decide)⟩

/-- C3: evaluating the secure-mode receive path at envelopes whose
declared `data_length` is inconsistent with the available ciphertext.
With `data_length = 0` (< 16) the `usize` subtraction
`data_length as usize - 16` panics (overflow in debug builds; in release
builds it wraps and the subsequent allocation/read of ~2^64 bytes
aborts); with `data_length = 30` but only 3 ciphertext bytes available
`read_exact` returns an error that is `unwrap`-panicked.  Both are
process aborts (`none` in this embedding, which has no error-returning
constructor because the source has no error-returning path), not framing
errors. -/
theorem get_checkin_receive_mismatch_panics :
    get_checkin_receive (fun _ => (some 0 : Option Nat)) (List.replicate 16 0)
        ([0, 0, 0, 0] ++ List.replicate 16 0) = none ∧
    get_checkin_receive (fun _ => (some 0 : Option Nat)) (List.replicate 16 0)
        ([30, 0, 0, 0] ++ List.replicate 16 0 ++ [1, 2, 3]) = none := by
  exact ⟨rfl, rfl⟩
